import Mathlib

/-!
Verification development for the aeromancy repository (quant-aq/aeromancy).

Shallow embedding of the parts of the code base the claims are about:

* `src/aeromancy/artifacts.py` — `WandbArtifactName` (parse / format / matches /
  override resolution), `AeromancyArtifact`, `Artifacts.declare_output`.
* `src/aeromancy/s3.py` — `S3Object`/`VersionedS3Object`, the local `Cache`
  (checksum index, `get_version`, `finalize_adding_file`, `repair`) and
  `S3Client` (`put`, `fetch`, `latest_version`).
* `src/aeromancy/action_runner.py` / `action_builder.py` / `action.py` —
  action skip flags, job-name filtering, graph-build-time property setting.
* `src/aeromancy/fake_tracker.py` — `FakeTracker.declare_output` /
  `declare_input`.

Python strings are modelled as Lean `String`; the character-level operations
the code uses (`str.split`, `str.rsplit`, `str.join`, substring tests) are
implemented on `List Char` and lifted through `String.toList`/`String.mk`,
which is faithful because Lean strings are exactly lists of characters.
Python `None`-able strings are `Option String`, with Python truthiness
(`None` and `""` are falsy) modelled explicitly.
-/

set_option autoImplicit false

deriving instance DecidableEq for Except

namespace Aeromancy

/-! ## Character-list string operations (Python `str.split` / `str.join` etc.) -/

/-- Python `s.split(sep)` for a one-character separator, on the character list
of the string.  `"".split(sep) == [""]`, matching Python. -/
def splitOnChar (sep : Char) : List Char → List (List Char)
  | [] => [[]]
  | c :: rest =>
      match splitOnChar sep rest with
      | [] => [[]]
      | w :: ws => if c = sep then [] :: w :: ws else (c :: w) :: ws

/-- Python `sep.join(words)` for a one-character separator. -/
def joinChar (sep : Char) : List (List Char) → List Char
  | [] => []
  | [w] => w
  | w :: ws => w ++ sep :: joinChar sep ws

/-- Python `needle in hay` (substring containment) on character lists. -/
def isSubstringList (needle : List Char) : List Char → Bool
  | [] => needle.isEmpty
  | c :: rest => needle.isPrefixOf (c :: rest) || isSubstringList needle rest

/-- Python `needle in hay` (substring containment) on strings. -/
def strContainsSub (hay needle : String) : Bool :=
  isSubstringList needle.toList hay.toList

/-- Python truthiness of an optional string: `None` and `""` are falsy. -/
def truthy (s : Option String) : Bool :=
  !(s.getD "").isEmpty

theorem splitOnChar_ne_nil (sep : Char) (l : List Char) : splitOnChar sep l ≠ [] := by
  cases l with
  | nil => simp [splitOnChar]
  | cons c rest =>
      simp only [splitOnChar]
      cases h : splitOnChar sep rest with
      | nil => simp
      | cons w ws =>
          by_cases hc : c = sep <;> simp [hc]

theorem splitOnChar_no_sep (sep : Char) (l : List Char) (h : sep ∉ l) :
    splitOnChar sep l = [l] := by
  induction l with
  | nil => rfl
  | cons c rest ih =>
      simp only [List.mem_cons, not_or] at h
      simp only [splitOnChar, ih h.2]
      have hc : ¬(c = sep) := fun hcs => h.1 hcs.symm
      simp [hc]

theorem splitOnChar_append_sep (sep : Char) (a b : List Char) (ha : sep ∉ a) :
    splitOnChar sep (a ++ sep :: b) = a :: splitOnChar sep b := by
  induction a with
  | nil =>
      simp only [List.nil_append, splitOnChar]
      cases h : splitOnChar sep b with
      | nil => exact absurd h (splitOnChar_ne_nil sep b)
      | cons w ws => simp
  | cons c rest ih =>
      simp only [List.mem_cons, not_or] at ha
      simp only [List.cons_append, splitOnChar, List.append_eq]
      rw [ih ha.2]
      have hc : ¬(c = sep) := fun hcs => ha.1 hcs.symm
      simp [hc]

/-! ## `WandbArtifactName` (artifacts.py) -/

/-- Character class of `VALID_WANDB_ARTIFACT_NAME_RE`:
alphanumeric characters, underscores, dashes and dots. -/
def isNameChar (c : Char) : Bool :=
  c.isAlphanum || c = '_' || c = '-' || c = '.'

/-- Whether a string matches `VALID_WANDB_ARTIFACT_NAME_RE`
(`^[a-zA-Z0-9_\-.]+$`): non-empty and made only of name characters. -/
def validName (s : String) : Bool :=
  !s.isEmpty && s.toList.all isNameChar

/-- Validity for an optional field: `None` is valid
(see `_validate_wandb_artifact_string`). -/
def validOptName (s : Option String) : Bool :=
  match s with
  | none => true
  | some v => validName v

/-- Parse of a Weights and Biases artifact name (`WandbArtifactName`).
Any of `entity`, `project`, `version` may be missing (`None`). -/
structure WandbArtifactName where
  entity : Option String
  project : Option String
  artifact_name : String
  version : Option String
deriving DecidableEq, Repr

/-- Validating constructor: `WandbArtifactName.__post_init__` raises
`ValueError` unless every present field matches the naming pattern. -/
def WandbArtifactName.mkValidated (entity project : Option String)
    (artifact_name : String) (version : Option String) :
    Except String WandbArtifactName :=
  if validOptName entity && validOptName project &&
      validName artifact_name && validOptName version then
    .ok ⟨entity, project, artifact_name, version⟩
  else
    .error "ValueError: invalid name"

/-- Character-level body of `WandbArtifactName.__str__`. -/
def WandbArtifactName.formatChars (n : WandbArtifactName) : List Char :=
  let pieces :=
    (if truthy n.entity then [(n.entity.getD "").toList] else []) ++
    (if truthy n.project then [(n.project.getD "").toList] else []) ++
    [n.artifact_name.toList]
  let base := joinChar '/' pieces
  if truthy n.version then base ++ ':' :: (n.version.getD "").toList else base

/-- `WandbArtifactName.__str__`: join present pieces with `/`, append
`:version` when a version is present. -/
def WandbArtifactName.toStr (n : WandbArtifactName) : String :=
  String.mk n.formatChars

/-- Version-splitting step of `WandbArtifactName.parse` (lines 146-149):
if the last piece contains `:`, replace it by everything before the last `:`
(Python `rsplit(":", 1)`) and return everything after it as the version. -/
def splitVersionOff (pieces : List (List Char)) :
    List (List Char) × Option (List Char) :=
  let lastPiece := pieces.getLastD []
  if ':' ∈ lastPiece then
    let segs := splitOnChar ':' lastPiece
    (pieces.dropLast ++ [joinChar ':' segs.dropLast], some (segs.getLastD []))
  else (pieces, none)

/-- Piece-count dispatch of `WandbArtifactName.parse` (the `match len(pieces)`
block): one, two or three slash-separated pieces; anything else is a
`ValueError`.  Resulting fields go through `__post_init__` validation. -/
def WandbArtifactName.parsePieces (s : String) :
    List (List Char) × Option (List Char) → Except String WandbArtifactName
  | ([n], version) =>
      WandbArtifactName.mkValidated none none (String.mk n)
        (version.map String.mk)
  | ([p, n], version) =>
      WandbArtifactName.mkValidated none (some (String.mk p)) (String.mk n)
        (version.map String.mk)
  | ([e, p, n], version) =>
      WandbArtifactName.mkValidated (some (String.mk e)) (some (String.mk p))
        (String.mk n) (version.map String.mk)
  | _ => .error ("Not sure how to parse: " ++ s)

/-- `WandbArtifactName.parse`: split on `/`, pull an optional `:version` off
the last piece, then dispatch on the number of pieces. -/
def WandbArtifactName.parse (s : String) : Except String WandbArtifactName :=
  WandbArtifactName.parsePieces s (splitVersionOff (splitOnChar '/' s.toList))

/-- `WandbArtifactName.matches`: entity and project must agree whenever both
are truthy, `artifact_name` must always be equal; versions are ignored. -/
def WandbArtifactName.matchesName (self other : WandbArtifactName) : Bool :=
  if truthy self.entity && truthy other.entity &&
      self.entity != other.entity then false
  else if truthy self.project && truthy other.project &&
      self.project != other.project then false
  else if self.artifact_name != other.artifact_name then false
  else true

/-- Default filling step of `resolve_artifact_name` (lines 246-249):
`project = project or default_project_name`, `version = version or "latest"`
(Python `or`, so falsy values are replaced). -/
def WandbArtifactName.fillDefaults (n : WandbArtifactName)
    (default_project_name : Option String) : WandbArtifactName :=
  { n with
    project := if truthy n.project then n.project else default_project_name,
    version := if truthy n.version then n.version else some "latest" }

/-- `WandbArtifactName.incorporate_overrides`: scan the override strings in
order, parse each, and take the version of the first one this name matches,
stopping there.  A parse failure of a scanned override propagates. -/
def WandbArtifactName.incorporate_overrides (self : WandbArtifactName) :
    List String → Except String WandbArtifactName
  | [] => .ok self
  | o :: rest =>
      match WandbArtifactName.parse o with
      | .error e => .error e
      | .ok parsed =>
          if self.matchesName parsed then
            .ok { self with version := parsed.version }
          else
            self.incorporate_overrides rest

/-- `WandbArtifactName.resolve_artifact_name`: parse, fill defaults,
incorporate overrides, format. -/
def WandbArtifactName.resolve_artifact_name (overrides : List String)
    (artifact_name : String) (default_project_name : Option String) :
    Except String String :=
  match WandbArtifactName.parse artifact_name with
  | .error e => .error e
  | .ok wan =>
      match (wan.fillDefaults default_project_name).incorporate_overrides
          overrides with
      | .error e => .error e
      | .ok wan2 => .ok wan2.toStr

/-! ## Helper lemmas about valid names and parsing -/

theorem stringMk_toList (s : String) : String.mk s.toList = s := by
  cases s
  rfl

theorem noSlash_of_valid (s : String) (h : validName s = true) : '/' ∉ s.toList := by
  intro hmem
  simp only [validName, Bool.and_eq_true, List.all_eq_true] at h
  have := h.2 '/' hmem
  simp [isNameChar, Char.isAlphanum, Char.isAlpha, Char.isDigit,
    Char.isUpper, Char.isLower] at this

theorem noColon_of_valid (s : String) (h : validName s = true) : ':' ∉ s.toList := by
  intro hmem
  simp only [validName, Bool.and_eq_true, List.all_eq_true] at h
  have := h.2 ':' hmem
  simp [isNameChar, Char.isAlphanum, Char.isAlpha, Char.isDigit,
    Char.isUpper, Char.isLower] at this

theorem truthy_some_of_valid (s : String) (h : validName s = true) :
    truthy (some s) = true := by
  simp only [validName, Bool.and_eq_true, Bool.not_eq_true'] at h
  simp [truthy, h.1]

theorem mkValidated_ok (e p : Option String) (nm : String) (v : Option String)
    (he : validOptName e = true) (hp : validOptName p = true)
    (hn : validName nm = true) (hv : validOptName v = true) :
    WandbArtifactName.mkValidated e p nm v = .ok ⟨e, p, nm, v⟩ := by
  simp [WandbArtifactName.mkValidated, he, hp, hn, hv]

theorem no_sep_append (sep c : Char) (a b : List Char) (ha : sep ∉ a)
    (hb : sep ∉ b) (hc : sep ≠ c) : sep ∉ a ++ c :: b := by
  intro h
  rcases List.mem_append.mp h with h1 | h1
  · exact ha h1
  · rcases List.mem_cons.mp h1 with h2 | h2
    · exact hc h2
    · exact hb h2

theorem toList_stringMk (l : List Char) : (String.mk l).toList = l := rfl

theorem splitVersionOff_no_colon (pieces : List (List Char))
    (h : ':' ∉ pieces.getLastD []) : splitVersionOff pieces = (pieces, none) := by
  simp only [splitVersionOff]
  rw [if_neg h]

theorem splitVersionOff_with_version (pre : List (List Char)) (nm vv : List Char)
    (hnm : ':' ∉ nm) (hvv : ':' ∉ vv) :
    splitVersionOff (pre ++ [nm ++ ':' :: vv]) = (pre ++ [nm], some vv) := by
  have hlast : (pre ++ [nm ++ ':' :: vv]).getLastD [] = nm ++ ':' :: vv := by
    simp
  have hmem : ':' ∈ nm ++ ':' :: vv := by simp
  simp only [splitVersionOff, hlast, if_pos hmem]
  rw [splitOnChar_append_sep ':' nm vv hnm, splitOnChar_no_sep ':' vv hvv]
  simp [joinChar]

theorem truthy_none : truthy none = false := by decide

theorem parse_toStr_aux (e p : Option String) (nm : String) (v : Option String)
    (he : validOptName e = true) (hp : validOptName p = true)
    (hn : validName nm = true) (hv : validOptName v = true)
    (hep : truthy e = true → truthy p = true) :
    WandbArtifactName.parse (WandbArtifactName.toStr ⟨e, p, nm, v⟩) =
      .ok ⟨e, p, nm, v⟩ := by
  have hnmS : '/' ∉ nm.toList := noSlash_of_valid nm hn
  have hnmC : ':' ∉ nm.toList := noColon_of_valid nm hn
  simp only [WandbArtifactName.toStr, WandbArtifactName.parse, toList_stringMk]
  cases e with
  | some es =>
      have hes : validName es = true := by simpa [validOptName] using he
      cases p with
      | none =>
          exact absurd (hep (truthy_some_of_valid es hes)) (by simp [truthy_none])
      | some ps =>
          have hps : validName ps = true := by simpa [validOptName] using hp
          have hesS : '/' ∉ es.toList := noSlash_of_valid es hes
          have hpsS : '/' ∉ ps.toList := noSlash_of_valid ps hps
          cases v with
          | none =>
              have hfc : WandbArtifactName.formatChars ⟨some es, some ps, nm, none⟩ =
                  es.toList ++ '/' :: (ps.toList ++ '/' :: nm.toList) := by
                simp [WandbArtifactName.formatChars, joinChar, truthy_none,
                  truthy_some_of_valid es hes, truthy_some_of_valid ps hps]
              rw [hfc, splitOnChar_append_sep '/' _ _ hesS,
                splitOnChar_append_sep '/' _ _ hpsS,
                splitOnChar_no_sep '/' _ hnmS,
                splitVersionOff_no_colon _ (by simpa using hnmC)]
              simp only [WandbArtifactName.parsePieces, Option.map_none',
                stringMk_toList]
              exact mkValidated_ok _ _ _ _ he hp hn hv
          | some vs =>
              have hvs : validName vs = true := by simpa [validOptName] using hv
              have hvsS : '/' ∉ vs.toList := noSlash_of_valid vs hvs
              have hvsC : ':' ∉ vs.toList := noColon_of_valid vs hvs
              have hfc : WandbArtifactName.formatChars ⟨some es, some ps, nm, some vs⟩ =
                  es.toList ++ '/' ::
                    (ps.toList ++ '/' :: (nm.toList ++ ':' :: vs.toList)) := by
                simp [WandbArtifactName.formatChars, joinChar,
                  truthy_some_of_valid es hes, truthy_some_of_valid ps hps,
                  truthy_some_of_valid vs hvs]
              rw [hfc, splitOnChar_append_sep '/' _ _ hesS,
                splitOnChar_append_sep '/' _ _ hpsS,
                splitOnChar_no_sep '/' _
                  (no_sep_append '/' ':' _ _ hnmS hvsS (by decide))]
              rw [show (es.toList :: ps.toList :: [nm.toList ++ ':' :: vs.toList] :
                      List (List Char)) =
                    [es.toList, ps.toList] ++ [nm.toList ++ ':' :: vs.toList]
                  from rfl,
                splitVersionOff_with_version _ _ _ hnmC hvsC]
              simp only [WandbArtifactName.parsePieces, Option.map_some',
                stringMk_toList, List.append_eq, List.nil_append,
                List.cons_append]
              exact mkValidated_ok _ _ _ _ he hp hn hv
  | none =>
      cases p with
      | some ps =>
          have hps : validName ps = true := by simpa [validOptName] using hp
          have hpsS : '/' ∉ ps.toList := noSlash_of_valid ps hps
          cases v with
          | none =>
              have hfc : WandbArtifactName.formatChars ⟨none, some ps, nm, none⟩ =
                  ps.toList ++ '/' :: nm.toList := by
                simp [WandbArtifactName.formatChars, joinChar, truthy_none,
                  truthy_some_of_valid ps hps]
              rw [hfc, splitOnChar_append_sep '/' _ _ hpsS,
                splitOnChar_no_sep '/' _ hnmS,
                splitVersionOff_no_colon _ (by simpa using hnmC)]
              simp only [WandbArtifactName.parsePieces, Option.map_none',
                stringMk_toList]
              exact mkValidated_ok _ _ _ _ he hp hn hv
          | some vs =>
              have hvs : validName vs = true := by simpa [validOptName] using hv
              have hvsS : '/' ∉ vs.toList := noSlash_of_valid vs hvs
              have hvsC : ':' ∉ vs.toList := noColon_of_valid vs hvs
              have hfc : WandbArtifactName.formatChars ⟨none, some ps, nm, some vs⟩ =
                  ps.toList ++ '/' :: (nm.toList ++ ':' :: vs.toList) := by
                simp [WandbArtifactName.formatChars, joinChar, truthy_some_of_valid ps hps,
                  truthy_some_of_valid vs hvs]
              rw [hfc, splitOnChar_append_sep '/' _ _ hpsS,
                splitOnChar_no_sep '/' _
                  (no_sep_append '/' ':' _ _ hnmS hvsS (by decide))]
              rw [show (ps.toList :: [nm.toList ++ ':' :: vs.toList] :
                      List (List Char)) =
                    [ps.toList] ++ [nm.toList ++ ':' :: vs.toList] from rfl,
                splitVersionOff_with_version _ _ _ hnmC hvsC]
              simp only [WandbArtifactName.parsePieces, Option.map_some',
                stringMk_toList, List.append_eq, List.nil_append,
                List.cons_append]
              exact mkValidated_ok _ _ _ _ he hp hn hv
      | none =>
          cases v with
          | none =>
              have hfc : WandbArtifactName.formatChars ⟨none, none, nm, none⟩ =
                  nm.toList := by
                simp [WandbArtifactName.formatChars, joinChar, truthy_none]
              rw [hfc, splitOnChar_no_sep '/' _ hnmS,
                splitVersionOff_no_colon _ (by simpa using hnmC)]
              simp only [WandbArtifactName.parsePieces, Option.map_none',
                stringMk_toList]
              exact mkValidated_ok _ _ _ _ he hp hn hv
          | some vs =>
              have hvs : validName vs = true := by simpa [validOptName] using hv
              have hvsS : '/' ∉ vs.toList := noSlash_of_valid vs hvs
              have hvsC : ':' ∉ vs.toList := noColon_of_valid vs hvs
              have hfc : WandbArtifactName.formatChars ⟨none, none, nm, some vs⟩ =
                  nm.toList ++ ':' :: vs.toList := by
                simp [WandbArtifactName.formatChars, joinChar, truthy_none,
                  truthy_some_of_valid vs hvs]
              rw [hfc,
                splitOnChar_no_sep '/' _
                  (no_sep_append '/' ':' _ _ hnmS hvsS (by decide))]
              rw [show ([nm.toList ++ ':' :: vs.toList] : List (List Char)) =
                    [] ++ [nm.toList ++ ':' :: vs.toList] from rfl,
                splitVersionOff_with_version _ _ _ hnmC hvsC]
              simp only [WandbArtifactName.parsePieces, Option.map_some',
                stringMk_toList, List.nil_append]
              exact mkValidated_ok _ _ _ _ he hp hn hv

/-! ## Claim C4: parse / format round trip -/

/-- C4 (corrected): for every valid `WandbArtifactName` whose entity is only
present when its project is also present, parsing the formatted string yields
the name back.  (The extra condition is forced by the counterexample below:
`entity` set with `project` unset formats as `entity/name`, which parses back
with the entity in the project slot.) -/
theorem parse_toStr_roundtrip (n : WandbArtifactName)
    (he : validOptName n.entity = true) (hp : validOptName n.project = true)
    (hn : validName n.artifact_name = true) (hv : validOptName n.version = true)
    (hep : truthy n.entity = true → truthy n.project = true) :
    WandbArtifactName.parse n.toStr = .ok n := by
  obtain ⟨e, p, nm, v⟩ := n
  exact parse_toStr_aux e p nm v he hp hn hv hep

/-- Witness for `parse_toStr_roundtrip` at a concrete fully-specified name. -/
theorem parse_toStr_roundtrip_witness :
    WandbArtifactName.parse
        (WandbArtifactName.toStr ⟨some "org", some "proj", "model", some "v0"⟩) =
      .ok ⟨some "org", some "proj", "model", some "v0"⟩ :=
  parse_toStr_roundtrip ⟨some "org", some "proj", "model", some "v0"⟩
    (by decide) (by decide) (by decide) (by decide) (by decide)

/-- C4 counterexample: the name with `entity = "e"`, `project` unset and
`artifact_name = "x"` is valid (all present fields match the naming pattern),
but it formats as `"e/x"`, which parses back with `project = "e"` and no
entity, so `parse(str(n)) ≠ n`. -/
theorem parse_toStr_roundtrip_counterexample :
    validOptName (some "e") = true ∧ validName "x" = true ∧
    WandbArtifactName.toStr ⟨some "e", none, "x", none⟩ = "e/x" ∧
    WandbArtifactName.parse (WandbArtifactName.toStr ⟨some "e", none, "x", none⟩) =
      .ok ⟨none, some "e", "x", none⟩ ∧
    WandbArtifactName.parse (WandbArtifactName.toStr ⟨some "e", none, "x", none⟩) ≠
      .ok ⟨some "e", none, "x", none⟩ := by
  decide

/-! ## Claim C3: the matching rule -/

/-- Wildcard comparison of one optional field, as the spec states it:
the field must be equal whenever it is non-empty on both sides. -/
def bothNonEmptyEqual (x y : Option String) : Bool :=
  !(truthy x && truthy y) || x == y

/-- Modelled from the claim C3 text (not from the source): matching requires
every field among entity, project, artifact_name and version that is
non-empty in both names to be equal. -/
def matchesClaimC3 (a b : WandbArtifactName) : Bool :=
  bothNonEmptyEqual a.entity b.entity && bothNonEmptyEqual a.project b.project &&
    (a.artifact_name == b.artifact_name) && bothNonEmptyEqual a.version b.version

/-- C3 counterexample: two names with equal `artifact_name` but different
versions set on both sides.  The code's `matches` returns `True` (versions
are ignored, per its own docstring), while the claimed rule returns
`False` because version is non-empty in both and differs. -/
theorem matchesName_claim_counterexample :
    WandbArtifactName.matchesName ⟨none, none, "x", some "v1"⟩
        ⟨none, none, "x", some "v2"⟩ = true ∧
    matchesClaimC3 ⟨none, none, "x", some "v1"⟩
        ⟨none, none, "x", some "v2"⟩ = false := by
  decide

/-- C3 (corrected): `matches` returns `True` iff every field among entity and
project that is non-empty in both names is equal and the `artifact_name`
fields are equal; versions are ignored entirely. -/
theorem matchesName_rule (a b : WandbArtifactName) :
    a.matchesName b =
      (bothNonEmptyEqual a.entity b.entity &&
        bothNonEmptyEqual a.project b.project &&
        (a.artifact_name == b.artifact_name)) := by
  simp only [WandbArtifactName.matchesName, bothNonEmptyEqual]
  by_cases h1 : truthy a.entity <;> by_cases h2 : truthy b.entity <;>
    by_cases h3 : truthy a.project <;> by_cases h4 : truthy b.project <;>
      by_cases h5 : a.entity = b.entity <;> by_cases h6 : a.project = b.project <;>
        by_cases h7 : a.artifact_name = b.artifact_name <;>
          simp [h1, h2, h3, h4, h5, h6, h7]

/-! ## Claim C2: override resolution precedence -/

theorem incorporate_overrides_first_match (w p : WandbArtifactName)
    (ovs1 ovs2 : List String) (o : String)
    (hpre : ∀ o1 ∈ ovs1, ∃ q, WandbArtifactName.parse o1 = .ok q ∧
        w.matchesName q = false)
    (ho : WandbArtifactName.parse o = .ok p)
    (hm : w.matchesName p = true) :
    w.incorporate_overrides (ovs1 ++ o :: ovs2) =
      .ok { w with version := p.version } := by
  induction ovs1 with
  | nil =>
      simp only [List.nil_append, WandbArtifactName.incorporate_overrides, ho]
      simp [hm]
  | cons a rest ih =>
      obtain ⟨q, hq, hqm⟩ := hpre a (List.mem_cons_self a rest)
      have ih2 := ih (fun o1 h1 => hpre o1 (List.mem_cons_of_mem a h1))
      simp only [List.cons_append, WandbArtifactName.incorporate_overrides, hq]
      simp [hqm, ih2]

/-- C2 (confirmed): `resolve_artifact_name` parses the name, fills the
project from the default project when unset and the version with "latest"
when unset (`fillDefaults`), and then applies the version of the first
override in table order whose `matches` succeeds, stopping there: whatever
follows the first matching override (`ovs2`, which may contain further
matching overrides) does not affect the result. -/
theorem resolve_artifact_name_first_match (ovs1 ovs2 : List String) (o s : String)
    (d : Option String) (w0 p : WandbArtifactName)
    (hs : WandbArtifactName.parse s = .ok w0)
    (hpre : ∀ o1 ∈ ovs1, ∃ q, WandbArtifactName.parse o1 = .ok q ∧
        (w0.fillDefaults d).matchesName q = false)
    (ho : WandbArtifactName.parse o = .ok p)
    (hm : (w0.fillDefaults d).matchesName p = true) :
    WandbArtifactName.resolve_artifact_name (ovs1 ++ o :: ovs2) s d =
      .ok (WandbArtifactName.toStr
        { w0.fillDefaults d with version := p.version }) := by
  simp only [WandbArtifactName.resolve_artifact_name, hs]
  simp [incorporate_overrides_first_match _ p ovs1 ovs2 o hpre ho hm]

/-- Witness for `resolve_artifact_name_first_match`: two matching overrides
in the table, the first one (v3) wins; the non-matching override before
them is skipped; project is filled from the default, version defaulted. -/
theorem resolve_artifact_name_first_match_witness :
    WandbArtifactName.resolve_artifact_name
        ["other:v9", "artifactname:v3", "artifactname:v5"]
        "artifactname" (some "proj") =
      .ok "proj/artifactname:v3" := by
  have h := resolve_artifact_name_first_match ["other:v9"] ["artifactname:v5"]
    "artifactname:v3" "artifactname" (some "proj")
    ⟨none, none, "artifactname", none⟩ ⟨none, none, "artifactname", some "v3"⟩
    (by decide)
    (by
      intro o1 h1
      simp only [List.mem_singleton] at h1
      subst h1
      exact ⟨⟨none, none, "other", some "v9"⟩, by decide, by decide⟩)
    (by decide) (by decide)
  rw [show WandbArtifactName.toStr
      { WandbArtifactName.fillDefaults ⟨none, none, "artifactname", none⟩
          (some "proj") with version :=
        (⟨none, none, "artifactname", some "v3"⟩ : WandbArtifactName).version } =
      "proj/artifactname:v3" from by decide] at h
  exact h

/-! ## S3 objects and the local checksum cache (s3.py)

File contents are modelled as byte lists (`List Nat`).  `file_digest`
(SHA-1 of the bytes) is a pure function of the contents, so the theorems
quantify over an arbitrary digest function `fd : List Nat → String`;
byte-identical files always produce the same digest.  Local and cached
file paths are modelled as lists of path components (`pathlib` parts). -/

/-- `S3Object`: a bucket name and a key. -/
structure S3Object where
  bucket : String
  key : String
deriving DecidableEq, Repr

/-- `VersionedS3Object`: an `S3Object` plus a version id. -/
structure VersionedS3Object where
  bucket : String
  key : String
  version_id : String
deriving DecidableEq, Repr

/-- A value of Python type `S3Object | VersionedS3Object`.  The two msgspec
struct types never compare equal to each other, which the two constructors
capture. -/
inductive S3Ref where
  | unversioned (obj : S3Object)
  | versioned (obj : VersionedS3Object)
deriving DecidableEq, Repr

/-- Python `isinstance(s3_object, VersionedS3Object)`. -/
def S3Ref.isVersioned : S3Ref → Bool
  | .unversioned _ => false
  | .versioned _ => true

/-- Path components of a string as `pathlib` computes them: split on `/`,
empty segments (leading, trailing or doubled slashes) collapse away. -/
def pathParts (s : String) : List String :=
  ((splitOnChar '/' s.toList).filter (fun w => !w.isEmpty)).map String.mk

/-- Python `str.removeprefix`: drop `pre` from the front of `s` when it is
a prefix, otherwise return `s` unchanged. -/
def removePrefixStr (s pre : String) : String :=
  if pre.isPrefixOf s then s.drop pre.length else s

/-- `S3Object.__truediv__` / `joinpath` with one piece: strip one leading
slash from the piece, then join onto the key with pathlib semantics. -/
def S3Object.div (o : S3Object) (suffix : String) : S3Object :=
  let sanitized := if suffix.startsWith "/" then suffix.drop 1 else suffix
  ⟨o.bucket, String.intercalate "/" (pathParts o.key ++ pathParts sanitized)⟩

/-- `CacheEntry`: a single checksum-index record. -/
structure CacheEntry where
  s3_object : S3Ref
  cached_filename : List String
  checksum_sha1 : String
deriving DecidableEq, Repr

/-- State of the local cache: its root directory (as path components), the
checksum index (a flat list of entries; the source keys them by checksum in
a dict of lists built in insertion order, so scanning the flat list for a
checksum visits the same entries in the same order), and the set of files
physically present in the cache directory. -/
structure CacheState where
  root : List String
  entries : List CacheEntry
  files : List (List String)
deriving DecidableEq, Repr

/-- `Cache.get_path`: `root/bucket/key` plus a final version component for a
`VersionedS3Object` (each piece contributes its pathlib parts). -/
def Cache.get_path (root : List String) : S3Ref → List String
  | .unversioned o => root ++ pathParts o.bucket ++ pathParts o.key
  | .versioned o =>
      root ++ pathParts o.bucket ++ pathParts o.key ++ pathParts o.version_id

/-- `Cache.get_version`: scan the entries recorded for `sha1` for one whose
`s3_object` equals the query; return the last component of its cached
filename (the version id), else `None`. -/
def Cache.get_version (entries : List CacheEntry) (s3_object : S3Ref)
    (sha1 : String) : Option String :=
  match entries.find? (fun e =>
      decide (e.checksum_sha1 = sha1 ∧ e.s3_object = s3_object)) with
  | some e => some (e.cached_filename.getLastD "")
  | none => none

/-- `Cache.finalize_adding_file` with a known checksum: append a
`CacheEntry` for the cached file and rewrite the index
(`_make_cacheentry` + `_save_checksums`; the chmod and mtime side effects
are filesystem metadata and not modelled). -/
def Cache.finalize_adding_file (cache : CacheState)
    (cached_filename : List String) (s3_object : S3Ref) (sha1 : String) :
    CacheState :=
  { cache with
    entries := cache.entries ++ [⟨s3_object, cached_filename, sha1⟩] }

/-- Record that a file now physically exists in the cache directory
(`shutil.copy` / `download_file` target; copying over an existing file
leaves the set of existing paths unchanged). -/
def addFileOnce (files : List (List String)) (f : List String) :
    List (List String) :=
  if files.any (fun x => decide (x = f)) then files else files ++ [f]

/-- Remote versioned object store: an association list from (bucket, key) to
the list of stored versions, newest first, each with its bytes.  The newest
binding for a key shadows older ones. -/
abbrev RemoteState : Type := List ((String × String) × List (String × List Nat))

/-- Versions currently stored for an object (newest first); an object never
uploaded has none. -/
def remoteLookup (remote : RemoteState) (bucket key : String) :
    List (String × List Nat) :=
  match remote.find? (fun e => decide (e.1 = (bucket, key))) with
  | some e => e.2
  | none => []

/-- Effect of an upload on the remote store: the object gains a new, newest
version holding the uploaded bytes. -/
def remoteInsert (remote : RemoteState) (bucket key version : String)
    (content : List Nat) : RemoteState :=
  ((bucket, key), (version, content) :: remoteLookup remote bucket key) ::
    remote

/-- Fresh version tokens assigned by the versioned remote store.  The store
assigns opaque unique tokens; the n-th token is modelled as the letter v
repeated n+1 times, which is non-empty and slash-free. -/
def freshVersion (n : Nat) : String :=
  String.mk ('v' :: List.replicate n 'v')

/-- Full state of `S3Client`: its cache, the remote store, the supply of
fresh version tokens, and counters of performed uploads and downloads. -/
structure S3State where
  cache : CacheState
  remote : RemoteState
  nextVersion : Nat
  uploads : Nat
  downloads : Nat
deriving DecidableEq, Repr

/-- boto3 `upload_file`: store the bytes remotely as a fresh new version. -/
def S3Client.upload_file (st : S3State) (content : List Nat)
    (obj : S3Object) : S3State :=
  { st with
    remote := remoteInsert st.remote obj.bucket obj.key
      (freshVersion st.nextVersion) content,
    nextVersion := st.nextVersion + 1,
    uploads := st.uploads + 1 }

/-- `S3Client.latest_version`: the VersionId reported by `get_object` (the
newest version); raises when the object has no version information. -/
def S3Client.latest_version (st : S3State) (obj : S3Object) :
    Except String String :=
  match (remoteLookup st.remote obj.bucket obj.key).head? with
  | some v => .ok v.1
  | none => .error "TypeError: s3_object has no version information"

/-- `S3Client.put` (s3.py lines 443-485): digest the local file, look the
checksum up in the cache; on a miss upload and take the fresh version id, on
a hit reuse the cached version id and skip the upload.  The cache-copy step
runs when `existing_version_id` is falsy (Python truthiness: `None` or the
empty string). -/
def S3Client.put (fd : List Nat → String) (st : S3State) (content : List Nat)
    (s3_object : S3Object) : Except String (VersionedS3Object × S3State) :=
  let sha1 := fd content
  match Cache.get_version st.cache.entries (.unversioned s3_object) sha1 with
  | none =>
      let st1 := S3Client.upload_file st content s3_object
      match S3Client.latest_version st1 s3_object with
      | .error e => .error e
      | .ok version_id =>
          let vso : VersionedS3Object :=
            ⟨s3_object.bucket, s3_object.key, version_id⟩
          let cached_filename := Cache.get_path st1.cache.root (.versioned vso)
          let cache1 :=
            { st1.cache with
              files := addFileOnce st1.cache.files cached_filename }
          let cache2 := Cache.finalize_adding_file cache1 cached_filename
            (.unversioned s3_object) sha1
          .ok (vso, { st1 with cache := cache2 })
  | some v =>
      let vso : VersionedS3Object := ⟨s3_object.bucket, s3_object.key, v⟩
      if v = "" then
        let cached_filename := Cache.get_path st.cache.root (.versioned vso)
        let cache1 :=
          { st.cache with files := addFileOnce st.cache.files cached_filename }
        let cache2 := Cache.finalize_adding_file cache1 cached_filename
          (.unversioned s3_object) sha1
        .ok (vso, { st with cache := cache2 })
      else
        .ok (vso, st)

/-- Bytes served by a remote download: a versioned request serves exactly
that version, an unversioned request serves the newest version; a missing
object or version is a client error. -/
def remoteFetch (st : S3State) : S3Ref → Option (List Nat)
  | .unversioned o => (remoteLookup st.remote o.bucket o.key).head?.map (·.2)
  | .versioned o =>
      match (remoteLookup st.remote o.bucket o.key).find?
          (fun ve => decide (ve.1 = o.version_id)) with
      | some ve => some ve.2
      | none => none

/-- `S3Client.fetch` (s3.py lines 385-441): refuse a plain `S3Object` unless
`allow_unversioned`; an already-cached path is returned as-is with no
download or re-validation; otherwise download, record the file and finalize
it into the cache (its checksum freshly computed from the bytes). -/
def S3Client.fetch (fd : List Nat → String) (st : S3State) (s3_object : S3Ref)
    (allow_unversioned : Bool) : Except String (List String × S3State) :=
  if !s3_object.isVersioned && !allow_unversioned then
    .error "ValueError: wont fetch an unversioned S3Object unless allow_unversioned=True"
  else
    let cached_filename := Cache.get_path st.cache.root s3_object
    if st.cache.files.any (fun x => decide (x = cached_filename)) then
      .ok (cached_filename, st)
    else
      match remoteFetch st s3_object with
      | none => .error "ClientError: object not found"
      | some content =>
          let st1 :=
            { st with
              downloads := st.downloads + 1,
              cache :=
                { st.cache with
                  files := addFileOnce st.cache.files cached_filename } }
          let cache2 := Cache.finalize_adding_file st1.cache cached_filename
            s3_object (fd content)
          .ok (cached_filename, { st1 with cache := cache2 })

/-! ## Helper lemmas about the S3 model -/

theorem remoteLookup_insert (remote : RemoteState) (b k v : String)
    (c : List Nat) :
    remoteLookup (remoteInsert remote b k v c) b k =
      (v, c) :: remoteLookup remote b k := by
  simp [remoteInsert, remoteLookup, List.find?_cons]

theorem freshVersion_ne_empty (n : Nat) : freshVersion n ≠ "" := by
  intro h
  have := congrArg String.data h
  simp [freshVersion] at this

theorem toList_freshVersion (n : Nat) :
    (freshVersion n).toList = 'v' :: List.replicate n 'v' := rfl

theorem noSlash_freshVersion (n : Nat) : '/' ∉ (freshVersion n).toList := by
  rw [toList_freshVersion]
  intro h
  rcases List.mem_cons.mp h with h1 | h1
  · exact absurd h1 (by decide)
  · exact absurd (List.eq_of_mem_replicate h1) (by decide)

theorem pathParts_singleton (s : String) (h : '/' ∉ s.toList)
    (hne : s.toList ≠ []) : pathParts s = [s] := by
  simp only [pathParts, splitOnChar_no_sep '/' _ h, List.filter,
    List.map]
  rw [show (!s.toList.isEmpty) = true from by
    cases hl : s.toList with
    | nil => exact absurd hl hne
    | cons a l => rfl]
  simp [stringMk_toList]

theorem pathParts_freshVersion (n : Nat) :
    pathParts (freshVersion n) = [freshVersion n] :=
  pathParts_singleton _ (noSlash_freshVersion n)
    (by rw [toList_freshVersion]; simp)

theorem find?_append_of_none {α : Type} (p : α → Bool) (l1 l2 : List α)
    (h : l1.find? p = none) : (l1 ++ l2).find? p = l2.find? p := by
  induction l1 with
  | nil => simp
  | cons a rest ih =>
      cases hpa : p a with
      | true =>
          rw [List.find?_cons_of_pos _ hpa] at h
          exact absurd h (by simp)
      | false =>
          rw [List.find?_cons_of_neg _ (by simp [hpa])] at h
          rw [List.cons_append, List.find?_cons_of_neg _ (by simp [hpa])]
          exact ih h

theorem getLastD_concat' {α : Type} (l : List α) (a d : α) :
    (l ++ [a]).getLastD d = a := by
  induction l with
  | nil => rfl
  | cons b rest ih =>
      rw [List.cons_append]
      cases hr : rest ++ [a] with
      | nil => exact absurd hr (by simp)
      | cons x xs =>
          simp only [List.getLastD_cons, hr] at ih ⊢
          exact ih

/-! ## Claim C1: content-dedup idempotence of `put` -/

/-- C1 (confirmed): starting from a state whose cache has no entry for the
checksum of the file contents at the unversioned destination, calling `put`
twice with byte-identical contents returns the same `VersionedS3Object`
both times and performs exactly one remote upload: the first call uploads
(raising the upload counter by one) and the second call finds the checksum
via `Cache.get_version`, skips the upload and the cache copy, and leaves
the whole state unchanged. -/
theorem put_idempotent (fd : List Nat → String) (st : S3State)
    (content : List Nat) (obj : S3Object)
    (hmiss : Cache.get_version st.cache.entries (.unversioned obj)
      (fd content) = none) :
    ∃ r stF,
      S3Client.put fd st content obj = .ok (r, stF) ∧
      S3Client.put fd stF content obj = .ok (r, stF) ∧
      stF.uploads = st.uploads + 1 := by
  have pred_none : st.cache.entries.find? (fun e =>
      decide (e.checksum_sha1 = fd content ∧
        e.s3_object = S3Ref.unversioned obj)) = none := by
    cases h : st.cache.entries.find? (fun e =>
        decide (e.checksum_sha1 = fd content ∧
          e.s3_object = S3Ref.unversioned obj)) with
    | none => rfl
    | some e =>
        rw [Cache.get_version, h] at hmiss
        exact absurd hmiss (by simp)
  have hlv : S3Client.latest_version (S3Client.upload_file st content obj)
      obj = .ok (freshVersion st.nextVersion) := by
    simp [S3Client.latest_version, S3Client.upload_file, remoteLookup_insert]
  have hlast : (Cache.get_path st.cache.root
      (.versioned ⟨obj.bucket, obj.key, freshVersion st.nextVersion⟩)).getLastD
        "" = freshVersion st.nextVersion := by
    simp only [Cache.get_path, pathParts_freshVersion]
    rw [show st.cache.root ++ pathParts obj.bucket ++ pathParts obj.key ++
          [freshVersion st.nextVersion] =
        (st.cache.root ++ pathParts obj.bucket ++ pathParts obj.key) ++
          [freshVersion st.nextVersion] from by simp]
    exact getLastD_concat' _ _ _
  refine ⟨⟨obj.bucket, obj.key, freshVersion st.nextVersion⟩,
    ⟨⟨st.cache.root,
      st.cache.entries ++
        [⟨S3Ref.unversioned obj,
          Cache.get_path st.cache.root
            (.versioned ⟨obj.bucket, obj.key, freshVersion st.nextVersion⟩),
          fd content⟩],
      addFileOnce st.cache.files
        (Cache.get_path st.cache.root
          (.versioned ⟨obj.bucket, obj.key, freshVersion st.nextVersion⟩))⟩,
      remoteInsert st.remote obj.bucket obj.key (freshVersion st.nextVersion)
        content,
      st.nextVersion + 1, st.uploads + 1, st.downloads⟩, ?_, ?_, ?_⟩
  · simp only [S3Client.put, hmiss, hlv]
    rfl
  · have hgv2 : Cache.get_version
        (st.cache.entries ++
          [⟨S3Ref.unversioned obj,
            Cache.get_path st.cache.root
              (.versioned ⟨obj.bucket, obj.key, freshVersion st.nextVersion⟩),
            fd content⟩])
        (.unversioned obj) (fd content) =
          some (freshVersion st.nextVersion) := by
      rw [Cache.get_version, find?_append_of_none _ _ _ pred_none]
      rw [List.find?_cons_of_pos _ (by simp)]
      simp only [hlast]
    simp only [S3Client.put, hgv2]
    rw [if_neg (freshVersion_ne_empty st.nextVersion)]
  · rfl

/-- Witness for `put_idempotent` at a concrete empty initial state. -/
theorem put_idempotent_witness :
    Cache.get_version (⟨⟨["root"], [], []⟩, [], 0, 0, 0⟩ : S3State).cache.entries
        (.unversioned ⟨"bucket", "a/b"⟩) ((fun _ => "sha") ([7] : List Nat)) =
      none ∧
    ∃ r stF,
      S3Client.put (fun _ => "sha") ⟨⟨["root"], [], []⟩, [], 0, 0, 0⟩ [7]
        ⟨"bucket", "a/b"⟩ = .ok (r, stF) ∧
      S3Client.put (fun _ => "sha") stF [7] ⟨"bucket", "a/b"⟩ = .ok (r, stF) ∧
      stF.uploads = (⟨⟨["root"], [], []⟩, [], 0, 0, 0⟩ : S3State).uploads + 1 :=
  ⟨rfl, put_idempotent (fun _ => "sha") ⟨⟨["root"], [], []⟩, [], 0, 0, 0⟩ [7]
    ⟨"bucket", "a/b"⟩ rfl⟩

/-! ## Claim C5: cache repair soundness -/

/-- A file physically present under the cache root: its path components
relative to the root, and its byte contents.  `repair` visits files in
sorted directory-walk order; the tree is given in traversal order.  A file
whose `parts` has length one sits directly in the cache root. -/
structure FileNode where
  parts : List String
  content : List Nat
deriving DecidableEq, Repr

/-- The cache entry `repair` records for one file: bucket is the first path
component, version the last, the key joins the components in between, and
the checksum is freshly recomputed from the file contents
(`[bucket, *key_parts, version_id] = relative_filename.parts`). -/
def Cache.repairEntry (fd : List Nat → String) (root : List String)
    (f : FileNode) : CacheEntry :=
  { s3_object := S3Ref.unversioned
      ⟨f.parts.headD "", String.intercalate "/" (f.parts.drop 1).dropLast⟩,
    cached_filename := root ++ f.parts,
    checksum_sha1 := fd f.content }

/-- `Cache.repair` (s3.py 305-321): clear the index, walk the cache
directory tree, skip files directly in the cache root (cache metadata), and
rebuild an entry for every other file with a freshly computed checksum. -/
def Cache.repair (fd : List Nat → String) (root : List String)
    (tree : List FileNode) : List CacheEntry :=
  (tree.filter (fun f => decide (2 ≤ f.parts.length))).map
    (Cache.repairEntry fd root)

/-- C5 (confirmed): after `repair`, (i) `get_version` succeeds for every
file physically present under the tree (excluding files directly in the
cache root) when queried with the file's unversioned `S3Object` and its
freshly recomputed checksum; (ii) the rebuilt index has an entry with the
freshly recomputed checksum for each such file; (iii) every entry of the
rebuilt index comes from a file physically present in the tree — no entry
exists for an absent file. -/
theorem repair_sound (fd : List Nat → String) (root : List String)
    (tree : List FileNode) :
    (∀ f ∈ tree, 2 ≤ f.parts.length →
      (Cache.get_version (Cache.repair fd root tree)
        (S3Ref.unversioned ⟨f.parts.headD "",
          String.intercalate "/" (f.parts.drop 1).dropLast⟩)
        (fd f.content)).isSome = true) ∧
    (∀ f ∈ tree, 2 ≤ f.parts.length →
      Cache.repairEntry fd root f ∈ Cache.repair fd root tree) ∧
    (∀ e ∈ Cache.repair fd root tree, ∃ f, f ∈ tree ∧ 2 ≤ f.parts.length ∧
      e = Cache.repairEntry fd root f) := by
  have hmem : ∀ f ∈ tree, 2 ≤ f.parts.length →
      Cache.repairEntry fd root f ∈ Cache.repair fd root tree := by
    intro f hf h2
    exact List.mem_map_of_mem _ (List.mem_filter.mpr ⟨hf, by simpa using h2⟩)
  refine ⟨?_, hmem, ?_⟩
  · intro f hf h2
    rw [Cache.get_version]
    cases hfind : (Cache.repair fd root tree).find? (fun e =>
        decide (e.checksum_sha1 = fd f.content ∧
          e.s3_object = S3Ref.unversioned ⟨f.parts.headD "",
            String.intercalate "/" (f.parts.drop 1).dropLast⟩)) with
    | some e => simp
    | none =>
        rw [List.find?_eq_none] at hfind
        have := hfind _ (hmem f hf h2)
        simp [Cache.repairEntry] at this
  · intro e he
    rw [Cache.repair] at he
    obtain ⟨f, hf, rfl⟩ := List.mem_map.mp he
    have hfil := List.mem_filter.mp hf
    exact ⟨f, hfil.1, by simpa using hfil.2, rfl⟩

/-- Witness for `repair_sound`: a concrete two-file tree (one real cached
file, one metadata file directly in the root). -/
theorem repair_sound_witness :
    ((⟨["bucketA", "keydir", "filev1"], [1, 2, 3]⟩ : FileNode) ∈
      [(⟨["bucketA", "keydir", "filev1"], [1, 2, 3]⟩ : FileNode),
        ⟨["checksums.json"], [9]⟩]) ∧
    (Cache.get_version
      (Cache.repair (fun _ => "sha") ["root"]
        [⟨["bucketA", "keydir", "filev1"], [1, 2, 3]⟩,
          ⟨["checksums.json"], [9]⟩])
      (S3Ref.unversioned
        ⟨(["bucketA", "keydir", "filev1"] : List String).headD "",
          String.intercalate "/"
            ((["bucketA", "keydir", "filev1"] : List String).drop 1).dropLast⟩)
      ((fun _ => "sha") ([1, 2, 3] : List Nat))).isSome = true :=
  ⟨by decide,
    (repair_sound (fun _ => "sha") ["root"]
      [⟨["bucketA", "keydir", "filev1"], [1, 2, 3]⟩,
        ⟨["checksums.json"], [9]⟩]).1
      ⟨["bucketA", "keydir", "filev1"], [1, 2, 3]⟩ (by decide) (by decide)⟩

/-! ## Claim C9: unversioned fetch refusal -/

/-- C9 (confirmed): `fetch` raises a `ValueError` for a plain `S3Object`
when `allow_unversioned` is false (the default), returning before any
download or cache mutation; with `allow_unversioned = true` (or a versioned
ref) the fetch is permitted, and a ref whose cache path already exists is
returned as-is — the same state comes back, with no download and no
re-validation of the cached contents. -/
theorem fetch_unversioned_refusal (fd : List Nat → String) (st : S3State)
    (ref : S3Ref) (allow : Bool) :
    (ref.isVersioned = false → S3Client.fetch fd st ref false =
      .error "ValueError: wont fetch an unversioned S3Object unless allow_unversioned=True") ∧
    ((ref.isVersioned = true ∨ allow = true) →
      st.cache.files.any (fun x =>
        decide (x = Cache.get_path st.cache.root ref)) = true →
      S3Client.fetch fd st ref allow =
        .ok (Cache.get_path st.cache.root ref, st)) := by
  constructor
  · intro hv
    simp [S3Client.fetch, hv]
  · intro hallow hcached
    have hguard : (!ref.isVersioned && !allow) = false := by
      rcases hallow with h | h <;> simp [h]
    simp only [S3Client.fetch, hguard, Bool.false_eq_true, if_false]
    simp [hcached]

/-- Witness for `fetch_unversioned_refusal`: the refusal at a concrete
unversioned ref, and the cached-path fast return at a concrete versioned
ref already present in the cache. -/
theorem fetch_unversioned_refusal_witness :
    (S3Client.fetch (fun _ => "sha")
        (⟨⟨["root"], [], []⟩, [], 0, 0, 0⟩ : S3State)
        (.unversioned ⟨"b", "k"⟩) false =
      .error "ValueError: wont fetch an unversioned S3Object unless allow_unversioned=True") ∧
    (S3Client.fetch (fun _ => "sha")
        (⟨⟨["root"], [], [["root", "b", "k", "v1"]]⟩, [], 0, 0, 0⟩ : S3State)
        (.versioned ⟨"b", "k", "v1"⟩) false =
      .ok (Cache.get_path ["root"] (.versioned ⟨"b", "k", "v1"⟩),
        ⟨⟨["root"], [], [["root", "b", "k", "v1"]]⟩, [], 0, 0, 0⟩)) :=
  ⟨(fetch_unversioned_refusal (fun _ => "sha")
      ⟨⟨["root"], [], []⟩, [], 0, 0, 0⟩ (.unversioned ⟨"b", "k"⟩) false).1 rfl,
    (fetch_unversioned_refusal (fun _ => "sha")
      ⟨⟨["root"], [], [["root", "b", "k", "v1"]]⟩, [], 0, 0, 0⟩
      (.versioned ⟨"b", "k", "v1"⟩) false).2 (Or.inl rfl) (by decide)⟩

/-! ## Claim C8: `Artifacts.declare_output` rejects empty outputs -/

/-- A local file handed to `declare_output`: its path (a string) and its
byte contents. -/
structure LocalFile where
  filename : String
  content : List Nat
deriving DecidableEq, Repr

/-- `AeromancyArtifact`: a named, typed bundle of versioned S3 objects. -/
structure AeromancyArtifact where
  name : String
  artifact_type : String
  s3 : List VersionedS3Object
deriving DecidableEq, Repr

/-- Validating constructor: `AeromancyArtifact.__post_init__` validates the
name and the artifact type against the naming pattern (the `s3` list itself
is not validated). -/
def AeromancyArtifact.mkValidated (name artifact_type : String)
    (s3 : List VersionedS3Object) : Except String AeromancyArtifact :=
  if validName name && validName artifact_type then
    .ok ⟨name, artifact_type, s3⟩
  else
    .error "ValueError: invalid name"

/-- The `strip_prefix` handling of `declare_output` (lines 469-472): when a
prefix is set, remove it (with a trailing slash) from the front of the
local filename. -/
def outputPath (f : LocalFile) (strip : Option String) : String :=
  match strip with
  | none => f.filename
  | some pre => removePrefixStr f.filename (pre ++ "/")

/-- The per-file loop of `Artifacts.declare_output` (lines 467-473): strip
the prefix when set, join the result onto the destination, `put` the file,
and collect the resulting versioned objects in order. -/
def Artifacts.putFiles (fd : List Nat → String) (dest : S3Object)
    (strip : Option String) :
    S3State → List LocalFile → Except String (List VersionedS3Object × S3State)
  | st, [] => .ok ([], st)
  | st, f :: rest =>
      match S3Client.put fd st f.content (dest.div (outputPath f strip)) with
      | .error e => .error e
      | .ok (vso, st1) =>
          match Artifacts.putFiles fd dest strip st1 rest with
          | .error e => .error e
          | .ok (rest_objs, st2) => .ok (vso :: rest_objs, st2)

/-- State of an `Artifacts` bridge: the S3 client state and the artifacts
registered (logged) on the tracking collaborator so far. -/
structure ArtifactsState where
  s3 : S3State
  logged : List AeromancyArtifact
deriving DecidableEq, Repr

/-- `Artifacts.declare_output` (artifacts.py 423-484): reject an empty file
list with a `ValueError` (creating and registering nothing); otherwise
upload every file via `put`, build the `AeromancyArtifact` from the
resulting versioned objects, and register it with the tracking
collaborator (modelled by appending it to `logged`). -/
def Artifacts.declare_output (fd : List Nat → String) (st : ArtifactsState)
    (name : String) (local_filenames : List LocalFile)
    (s3_destination : S3Object) (artifact_type : String)
    (strip : Option String) :
    Except String (AeromancyArtifact × ArtifactsState) :=
  if local_filenames.isEmpty then
    .error "Need at least 1 item in local_filenames to be an output."
  else
    match Artifacts.putFiles fd s3_destination strip st.s3 local_filenames with
    | .error e => .error e
    | .ok (s3_objects, st1) =>
        match AeromancyArtifact.mkValidated name artifact_type s3_objects with
        | .error e => .error e
        | .ok aero_artifact =>
            .ok (aero_artifact, ⟨st1, st.logged ++ [aero_artifact]⟩)

theorem put_isOk (fd : List Nat → String) (st : S3State) (content : List Nat)
    (obj : S3Object) :
    ∃ r stN, S3Client.put fd st content obj = .ok (r, stN) := by
  cases hgv : Cache.get_version st.cache.entries (.unversioned obj)
      (fd content) with
  | none =>
      have hlv : S3Client.latest_version (S3Client.upload_file st content obj)
          obj = .ok (freshVersion st.nextVersion) := by
        simp [S3Client.latest_version, S3Client.upload_file,
          remoteLookup_insert]
      simp only [S3Client.put, hgv, hlv]
      exact ⟨_, _, rfl⟩
  | some v =>
      simp only [S3Client.put, hgv]
      by_cases hv : v = ""
      · rw [if_pos hv]
        exact ⟨_, _, rfl⟩
      · rw [if_neg hv]
        exact ⟨_, _, rfl⟩

theorem putFiles_isOk (fd : List Nat → String) (dest : S3Object)
    (strip : Option String) :
    ∀ (files : List LocalFile) (st : S3State),
      ∃ objs stN, Artifacts.putFiles fd dest strip st files =
        .ok (objs, stN) ∧ objs.length = files.length := by
  intro files
  induction files with
  | nil => exact fun st => ⟨[], st, rfl, rfl⟩
  | cons f rest ih =>
      intro st
      obtain ⟨vso, st1, hput⟩ := put_isOk fd st f.content
        (dest.div (outputPath f strip))
      obtain ⟨objs, st2, hrest, hlen⟩ := ih st1
      refine ⟨vso :: objs, st2, ?_, by simp [hlen]⟩
      simp only [Artifacts.putFiles, hput, hrest]

/-- C8 (confirmed): `declare_output` raises a `ValueError` when
`local_filenames` is empty, creating and registering no artifact; for a
non-empty list (with valid name and artifact type) it returns an
`AeromancyArtifact` carrying the given name and type whose `s3` list is
non-empty, with exactly one `VersionedS3Object` per input file. -/
theorem declare_output_nonempty (fd : List Nat → String) (st : ArtifactsState)
    (name : String) (files : List LocalFile) (dest : S3Object)
    (artifact_type : String) (strip : Option String) :
    (Artifacts.declare_output fd st name [] dest artifact_type strip =
      .error "Need at least 1 item in local_filenames to be an output.") ∧
    (files ≠ [] → validName name = true → validName artifact_type = true →
      ∃ a st1, Artifacts.declare_output fd st name files dest artifact_type
          strip = .ok (a, st1) ∧
        a.s3.length = files.length ∧ a.s3 ≠ [] ∧
        a.name = name ∧ a.artifact_type = artifact_type) := by
  constructor
  · rfl
  · intro hne hn ht
    obtain ⟨objs, stN, hpf, hlen⟩ := putFiles_isOk fd dest strip files st.s3
    have hmk : AeromancyArtifact.mkValidated name artifact_type objs =
        .ok ⟨name, artifact_type, objs⟩ := by
      simp [AeromancyArtifact.mkValidated, hn, ht]
    have hobjs_ne : objs ≠ [] := by
      intro h0
      rw [h0] at hlen
      exact hne (List.eq_nil_of_length_eq_zero hlen.symm)
    refine ⟨⟨name, artifact_type, objs⟩,
      ⟨stN, st.logged ++ [⟨name, artifact_type, objs⟩]⟩, ?_, hlen, hobjs_ne,
      rfl, rfl⟩
    rw [Artifacts.declare_output,
      if_neg (by simpa [List.isEmpty_eq_true] using hne)]
    simp only [hpf, hmk]

/-- Witness for `declare_output_nonempty` at a concrete one-file input. -/
theorem declare_output_nonempty_witness :
    ([(⟨"data/file.txt", [1]⟩ : LocalFile)] ≠ []) ∧
    (∃ a st1,
      Artifacts.declare_output (fun _ => "sha")
          ⟨⟨⟨["root"], [], []⟩, [], 0, 0, 0⟩, []⟩ "art"
          [⟨"data/file.txt", [1]⟩] ⟨"bucket", "dest"⟩ "txt" none =
        .ok (a, st1) ∧
      a.s3.length = [(⟨"data/file.txt", [1]⟩ : LocalFile)].length ∧
      a.s3 ≠ [] ∧ a.name = "art" ∧ a.artifact_type = "txt") :=
  ⟨by decide,
    (declare_output_nonempty (fun _ => "sha")
      ⟨⟨⟨["root"], [], []⟩, [], 0, 0, 0⟩, []⟩ "art" [⟨"data/file.txt", [1]⟩]
      ⟨"bucket", "dest"⟩ "txt" none).2 (by decide) (by decide) (by decide)⟩

/-! ## Claim C6: filter override semantics (action_runner.py) -/

/-- The data of an `Action` relevant to scheduling: its `job_type`, the
artifact names `outputs()` returns, and the declared skip flag set at graph
build time. -/
structure ActionModel where
  job_type : String
  outputs : List String
  skip : Bool
deriving DecidableEq, Repr

/-- The composite description `_convert_action_to_doittask` builds for the
name filter (line 128): the job type and the space-joined output names. -/
def actionDescription (a : ActionModel) : String :=
  a.job_type ++ " " ++ String.intercalate " " a.outputs

/-- Python `str.strip()`: remove leading and trailing whitespace. -/
def strStrip (s : String) : String :=
  String.mk
    (((s.toList.dropWhile Char.isWhitespace).reverse.dropWhile
      Char.isWhitespace).reverse)

/-- The `job_name_filter` closure installed by `run_actions` when `--only`
is given (lines 212-220): true iff at least one whitespace-stripped filter
substring occurs in the job name. -/
def jobNameFilter (only : List String) (job_name : String) : Bool :=
  only.any (fun sub => strContainsSub job_name (strStrip sub))

/-- The fields of the pydoit task built by `_convert_action_to_doittask`
which matter for scheduling.  pydoit treats a task with
`uptodate=[True]` as up to date and skips it, so the task runs iff
`uptodate` is false. -/
structure DoitTask where
  name : String
  doc : String
  uptodate : Bool
deriving DecidableEq, Repr

/-- Whether pydoit executes the task: it runs iff not up to date. -/
def DoitTask.runs (t : DoitTask) : Bool := !t.uptodate

/-- `ActionRunner._convert_action_to_doittask` (action_runner.py 117-157):
start from the declared skip flag; when a job-name filter is installed the
filter overrides it — the task is skipped iff the filter rejects the
description. -/
def convert_action_to_doittask (job_name_filter : Option (List String))
    (a : ActionModel) : DoitTask :=
  let skip := a.skip
  let skip := match job_name_filter with
    | none => skip
    | some only => !(jobNameFilter only (actionDescription a))
  { name := a.outputs.headD "", doc := a.job_type, uptodate := skip }

/-- `run_actions` (lines 212-220) installs the job-name filter only when
`only` is truthy, i.e. a non-empty set. -/
def run_actions_filter (only : Option (List String)) : Option (List String) :=
  match only with
  | none => none
  | some l => if l.isEmpty then none else some l

/-- C6 (confirmed): with a non-empty `only` filter passed to `run_actions`,
an action's task runs iff at least one whitespace-stripped filter substring
occurs in the description built from its job type and its space-joined
output names; the declared skip flag has no effect on this decision in
either direction. -/
theorem filter_overrides_skip (only : List String) (jt : String)
    (outs : List String) (declaredSkip : Bool) (honly : only ≠ []) :
    (convert_action_to_doittask (run_actions_filter (some only))
        ⟨jt, outs, declaredSkip⟩).runs =
      only.any (fun sub =>
        strContainsSub (actionDescription ⟨jt, outs, declaredSkip⟩)
          (strStrip sub)) ∧
    (convert_action_to_doittask (run_actions_filter (some only))
        ⟨jt, outs, true⟩).runs =
      (convert_action_to_doittask (run_actions_filter (some only))
        ⟨jt, outs, false⟩).runs := by
  have h : run_actions_filter (some only) = some only := by
    rw [run_actions_filter,
      if_neg (by simpa [List.isEmpty_eq_true] using honly)]
  constructor
  · simp [convert_action_to_doittask, h, DoitTask.runs, jobNameFilter]
  · simp only [convert_action_to_doittask, h, DoitTask.runs]
    rfl

/-- Witness for `filter_overrides_skip`: a filter substring matching the
job type of an action whose declared flag says skip — it runs anyway. -/
theorem filter_overrides_skip_witness :
    (convert_action_to_doittask (run_actions_filter (some ["train"]))
        ⟨"train-model", ["model.pkl"], true⟩).runs =
      (["train"].any (fun sub =>
        strContainsSub
          (actionDescription ⟨"train-model", ["model.pkl"], true⟩)
          (strStrip sub))) ∧
    (convert_action_to_doittask (run_actions_filter (some ["train"]))
        ⟨"train-model", ["model.pkl"], true⟩).runs = true :=
  ⟨(filter_overrides_skip ["train"] "train-model" ["model.pkl"] true
      (by decide)).1,
    by decide⟩

/-! ## Claim C7: build-time skip assignment (action_builder.py) -/

/-- Attribute names defined on class `Action` (action.py): the class
variables, the methods, the instance attributes set in `__init__`, and the
`skip` property.  There is no `_set_buildtime_properties` among them. -/
def actionClassAttributes : List String :=
  ["job_type", "job_group", "__init__", "config", "parents",
    "_tracker_class", "_project_name", "outputs", "run", "_run",
    "_set_tracker", "get_io", "_set_runtime_properties", "skip", "_skip"]

/-- Runtime state of an `Action` instance as manipulated by the builder:
its project name and skip flag, unset until a setter runs. -/
structure PyAction where
  project_name : Option String
  skipFlag : Option Bool
deriving DecidableEq, Repr

/-- `Action._set_runtime_properties` (action.py 125-131): sets `_skip` and
`_project_name`. -/
def Action.set_runtime_properties (a : PyAction) (project_name : String)
    (skip : Bool) : PyAction :=
  { a with project_name := some project_name, skipFlag := some skip }

/-- `ActionBuilder.add_action` (action_builder.py 49-74): it calls
`action._set_buildtime_properties(self._project_name, skip=skip)` and then
appends the action.  Python resolves the call by attribute lookup on the
`Action` instance; the class defines no `_set_buildtime_properties` (its
property setter is named `_set_runtime_properties`), so the lookup raises
`AttributeError` before the append.  Were the attribute present, the call
would set the project name and skip flag and append the action. -/
def ActionBuilder.add_action (project_name : String)
    (actions : List PyAction) (action : PyAction) (skip : Bool) :
    Except String (List PyAction × PyAction) :=
  if actionClassAttributes.contains "_set_buildtime_properties" then
    let action1 := Action.set_runtime_properties action project_name skip
    .ok (actions ++ [action1], action1)
  else
    .error "AttributeError: Action object has no attribute _set_buildtime_properties"

/-- C7 (code_bug): `add_action` never completes — for every project name,
action list, action and skip flag it raises `AttributeError` before
appending, because it calls `_set_buildtime_properties` while the `Action`
class only defines `_set_runtime_properties` (whose body is exactly the
build-time property assignment the claim describes).  The claim matches
the intent documented in `ActionBuilder.build_actions` and the spec; the
method name mismatch in the code is a slip. -/
theorem add_action_attribute_error (project_name : String)
    (actions : List PyAction) (action : PyAction) (skip : Bool) :
    ActionBuilder.add_action project_name actions action skip =
      .error "AttributeError: Action object has no attribute _set_buildtime_properties" ∧
    actionClassAttributes.contains "_set_runtime_properties" = true ∧
    actionClassAttributes.contains "_set_buildtime_properties" = false ∧
    (Action.set_runtime_properties action project_name skip).skipFlag =
      some skip ∧
    (Action.set_runtime_properties action project_name skip).project_name =
      some project_name := by
  refine ⟨?_, by decide, by decide, rfl, rfl⟩
  rw [ActionBuilder.add_action, if_neg (by decide)]

/-! ## Claim C10: fake backend single-version invariant (fake_tracker.py) -/

/-- The `FAKE_ENTITY` constant. -/
def FAKE_ENTITY : String := "FAKE_ENTITY"

/-- The `FAKE_VERSION` constant. -/
def FAKE_VERSION : String := "FAKE_VERSION"

/-- State of a `FakeTracker`: its local cache and the persisted
name-to-artifact mapping (`FakeArtifactMapping.artifacts_by_name`, a dict
modelled as an association list in insertion order with unique keys). -/
structure FakeTrackerState where
  cache : CacheState
  artifacts_by_name : List (String × AeromancyArtifact)
deriving DecidableEq, Repr

/-- Python dict assignment `d[k] = v`: replace the value at an existing key
in place, otherwise append a new binding. -/
def dictSet (m : List (String × AeromancyArtifact)) (k : String)
    (v : AeromancyArtifact) : List (String × AeromancyArtifact) :=
  if m.any (fun p => decide (p.1 = k)) then
    m.map (fun p => if p.1 = k then (k, v) else p)
  else m ++ [(k, v)]

/-- Python dict lookup `d[k]`: the first binding with the key. -/
def dictGet (m : List (String × AeromancyArtifact)) (k : String) :
    Option AeromancyArtifact :=
  (m.find? (fun p => decide (p.1 = k))).map (fun p => p.2)

/-- Per-file loop of `FakeTracker.declare_output` (fake_tracker.py
169-211): build a `VersionedS3Object` with the fixed `FAKE_VERSION` for
each file, and store the file in the fake cache unless `get_version`
already finds its checksum for that versioned object. -/
def FakeTracker.putFiles (fd : List Nat → String) (dest : S3Object)
    (strip : Option String) :
    CacheState → List LocalFile → List VersionedS3Object × CacheState
  | cache, [] => ([], cache)
  | cache, f :: rest =>
      let vso : VersionedS3Object :=
        ⟨dest.bucket, (dest.div (outputPath f strip)).key, FAKE_VERSION⟩
      let sha1 := fd f.content
      let cache1 :=
        match Cache.get_version cache.entries (.versioned vso) sha1 with
        | none =>
            let cached_path := Cache.get_path cache.root (.versioned vso)
            let cacheA :=
              { cache with files := addFileOnce cache.files cached_path }
            Cache.finalize_adding_file cacheA cached_path (.versioned vso)
              sha1
        | some _ => cache
      let res := FakeTracker.putFiles fd dest strip cache1 rest
      (vso :: res.1, res.2)

/-- `FakeTracker.declare_output` (fake_tracker.py 155-227): convert each
file to a fake `VersionedS3Object` with version `FAKE_VERSION`, store the
files in the fake cache, build the `AeromancyArtifact`, and record it in
the artifact mapping (`_set_artifact_mapping`) under the formatted name
`FAKE_ENTITY/project/name:FAKE_VERSION`, replacing any previous binding for
that key. -/
def FakeTracker.declare_output (fd : List Nat → String)
    (st : FakeTrackerState) (project_name name : String)
    (local_filenames : List LocalFile) (s3_destination : S3Object)
    (artifact_type : String) (strip : Option String) :
    Except String (AeromancyArtifact × FakeTrackerState) :=
  let res := FakeTracker.putFiles fd s3_destination strip st.cache
    local_filenames
  match AeromancyArtifact.mkValidated name artifact_type res.1 with
  | .error e => .error e
  | .ok aero_artifact =>
      match WandbArtifactName.mkValidated (some FAKE_ENTITY)
          (some project_name) name (some FAKE_VERSION) with
      | .error e => .error e
      | .ok artifact_name =>
          .ok (aero_artifact,
            ⟨res.2,
              dictSet st.artifacts_by_name artifact_name.toStr
                aero_artifact⟩)

/-- Name rewriting in `FakeTracker.declare_input` (fake_tracker.py
235-244): a requested version of "latest" becomes `FAKE_VERSION`, a
missing project becomes the tracker's project, and the entity is always
masked to `FAKE_ENTITY`. -/
def FakeTracker.rewriteInputName (project_name : String)
    (an : WandbArtifactName) : WandbArtifactName :=
  let an1 := if an.version = some "latest"
    then { an with version := some FAKE_VERSION } else an
  let an2 := if an1.project = none
    then { an1 with project := some project_name } else an1
  { an2 with entity := some FAKE_ENTITY }

theorem fake_putFiles_versions (fd : List Nat → String) (dest : S3Object)
    (strip : Option String) :
    ∀ (files : List LocalFile) (cache : CacheState),
      ∀ v ∈ (FakeTracker.putFiles fd dest strip cache files).1,
        v.version_id = FAKE_VERSION := by
  intro files
  induction files with
  | nil =>
      intro cache v hv
      simp [FakeTracker.putFiles] at hv
  | cons f rest ih =>
      intro cache v hv
      simp only [FakeTracker.putFiles] at hv
      rcases List.mem_cons.mp hv with h | h
      · subst h; rfl
      · exact ih _ v h

theorem find?_mapSet (k : String) (v : AeromancyArtifact) :
    ∀ (m : List (String × AeromancyArtifact)),
      m.any (fun p => decide (p.1 = k)) = true →
      ((m.map (fun p => if p.1 = k then (k, v) else p)).find?
        (fun p => decide (p.1 = k))) = some (k, v) := by
  intro m
  induction m with
  | nil => simp
  | cons p rest ih =>
      intro h
      by_cases hp : p.1 = k
      · simp [List.find?_cons, hp]
      · have h2 : rest.any (fun p => decide (p.1 = k)) = true := by
          simpa [List.any_cons, hp] using h
        simp [List.find?_cons, hp, ih h2]

theorem dictGet_dictSet_self (m : List (String × AeromancyArtifact))
    (k : String) (v : AeromancyArtifact) :
    dictGet (dictSet m k v) k = some v := by
  rw [dictSet]
  by_cases h : m.any (fun p => decide (p.1 = k))
  · rw [if_pos h, dictGet, find?_mapSet k v m h]
    rfl
  · rw [if_neg h, dictGet]
    have hall : ∀ x ∈ m, ¬ ((fun p => decide (p.1 = k)) x = true) := by
      intro x hx hpx
      exact h (List.any_eq_true.mpr ⟨x, hx, hpx⟩)
    rw [find?_append_of_none _ _ _ (List.find?_eq_none.mpr hall)]
    simp [List.find?_cons]

theorem any_dictSet (m : List (String × AeromancyArtifact)) (k : String)
    (v : AeromancyArtifact) :
    (dictSet m k v).any (fun p => decide (p.1 = k)) = true := by
  rw [dictSet]
  by_cases h : m.any (fun p => decide (p.1 = k))
  · rw [if_pos h]
    exact List.any_eq_true.mpr
      ⟨(k, v), List.mem_of_find?_eq_some (find?_mapSet k v m h), by simp⟩
  · rw [if_neg h]
    exact List.any_eq_true.mpr ⟨(k, v), by simp, by simp⟩

theorem dictSet_length_of_any (m : List (String × AeromancyArtifact))
    (k : String) (v : AeromancyArtifact)
    (h : m.any (fun p => decide (p.1 = k)) = true) :
    (dictSet m k v).length = m.length := by
  simp [dictSet, h]

theorem fake_declare_output_eq (fd : List Nat → String)
    (st : FakeTrackerState) (project_name name : String)
    (files : List LocalFile) (dest : S3Object) (artifact_type : String)
    (strip : Option String)
    (hp : validName project_name = true) (hn : validName name = true)
    (ht : validName artifact_type = true) :
    FakeTracker.declare_output fd st project_name name files dest
        artifact_type strip =
      .ok (⟨name, artifact_type,
          (FakeTracker.putFiles fd dest strip st.cache files).1⟩,
        ⟨(FakeTracker.putFiles fd dest strip st.cache files).2,
          dictSet st.artifacts_by_name
            (WandbArtifactName.toStr
              ⟨some FAKE_ENTITY, some project_name, name, some FAKE_VERSION⟩)
            ⟨name, artifact_type,
              (FakeTracker.putFiles fd dest strip st.cache files).1⟩⟩) := by
  have hmkA : AeromancyArtifact.mkValidated name artifact_type
      (FakeTracker.putFiles fd dest strip st.cache files).1 =
      .ok ⟨name, artifact_type,
        (FakeTracker.putFiles fd dest strip st.cache files).1⟩ := by
    simp [AeromancyArtifact.mkValidated, hn, ht]
  have hmkW : WandbArtifactName.mkValidated (some FAKE_ENTITY)
      (some project_name) name (some FAKE_VERSION) =
      .ok ⟨some FAKE_ENTITY, some project_name, name, some FAKE_VERSION⟩ :=
    mkValidated_ok _ _ _ _ (by decide) (by simpa [validOptName] using hp) hn
      (by decide)
  simp only [FakeTracker.declare_output, hmkA, hmkW]

/-- C10 (confirmed): (i) every `VersionedS3Object` in an artifact produced
by `FakeTracker.declare_output` has version id `FAKE_VERSION`; (ii)
`declare_input` rewrites a requested version of "latest" to
`FAKE_VERSION`; (iii) re-declaring the same artifact name (same project
and name) replaces the previous artifact-mapping entry in place rather
than adding one: the mapping keeps its size and maps the name to the new
artifact. -/
theorem fake_tracker_single_version (fd : List Nat → String)
    (st : FakeTrackerState) (project_name name : String)
    (files1 files2 : List LocalFile) (dest1 dest2 : S3Object)
    (type1 type2 : String) (sp1 sp2 : Option String)
    (an : WandbArtifactName)
    (hp : validName project_name = true) (hn : validName name = true)
    (ht1 : validName type1 = true) (ht2 : validName type2 = true) :
    (∀ a st1, FakeTracker.declare_output fd st project_name name files1
        dest1 type1 sp1 = .ok (a, st1) →
      ∀ v ∈ a.s3, v.version_id = FAKE_VERSION) ∧
    (an.version = some "latest" →
      (FakeTracker.rewriteInputName project_name an).version =
        some FAKE_VERSION) ∧
    (∀ a1 st1 a2 st2,
      FakeTracker.declare_output fd st project_name name files1 dest1
        type1 sp1 = .ok (a1, st1) →
      FakeTracker.declare_output fd st1 project_name name files2 dest2
        type2 sp2 = .ok (a2, st2) →
      st2.artifacts_by_name.length = st1.artifacts_by_name.length ∧
      dictGet st2.artifacts_by_name
        (WandbArtifactName.toStr
          ⟨some FAKE_ENTITY, some project_name, name, some FAKE_VERSION⟩) =
        some a2) := by
  refine ⟨?_, ?_, ?_⟩
  · intro a st1 h v hv
    rw [fake_declare_output_eq fd st project_name name files1 dest1 type1
      sp1 hp hn ht1] at h
    have ha : a = ⟨name, type1,
        (FakeTracker.putFiles fd dest1 sp1 st.cache files1).1⟩ := by
      have := (Except.ok.inj h)
      exact (Prod.mk.inj this).1.symm
    subst ha
    exact fake_putFiles_versions fd dest1 sp1 files1 st.cache v hv
  · intro hlatest
    rw [FakeTracker.rewriteInputName]
    by_cases hpr : an.project = none <;> simp [hlatest, hpr]
  · intro a1 st1 a2 st2 h1 h2
    rw [fake_declare_output_eq fd st project_name name files1 dest1 type1
      sp1 hp hn ht1] at h1
    rw [fake_declare_output_eq fd st1 project_name name files2 dest2 type2
      sp2 hp hn ht2] at h2
    have hst1 : st1.artifacts_by_name = dictSet st.artifacts_by_name
        (WandbArtifactName.toStr
          ⟨some FAKE_ENTITY, some project_name, name, some FAKE_VERSION⟩)
        ⟨name, type1,
          (FakeTracker.putFiles fd dest1 sp1 st.cache files1).1⟩ := by
      have := (Prod.mk.inj (Except.ok.inj h1)).2
      rw [← this]
    have ha2 : a2 = ⟨name, type2,
        (FakeTracker.putFiles fd dest2 sp2 st1.cache files2).1⟩ :=
      ((Prod.mk.inj (Except.ok.inj h2)).1).symm
    have hst2 : st2.artifacts_by_name = dictSet st1.artifacts_by_name
        (WandbArtifactName.toStr
          ⟨some FAKE_ENTITY, some project_name, name, some FAKE_VERSION⟩)
        ⟨name, type2,
          (FakeTracker.putFiles fd dest2 sp2 st1.cache files2).1⟩ := by
      have := (Prod.mk.inj (Except.ok.inj h2)).2
      rw [← this]
    have hkey : st1.artifacts_by_name.any (fun p => decide (p.1 =
        WandbArtifactName.toStr
          ⟨some FAKE_ENTITY, some project_name, name,
            some FAKE_VERSION⟩)) = true := by
      rw [hst1]
      exact any_dictSet _ _ _
    constructor
    · rw [hst2, dictSet_length_of_any _ _ _ hkey]
    · rw [hst2, ha2, dictGet_dictSet_self]

/-- Witness for `fake_tracker_single_version`: the "latest" rewrite at a
concrete artifact name, and the in-place replacement after two concrete
declarations of the same name. -/
theorem fake_tracker_single_version_witness :
    (FakeTracker.rewriteInputName "proj"
        ⟨none, none, "art", some "latest"⟩).version = some FAKE_VERSION :=
  (fake_tracker_single_version (fun _ => "sha")
    ⟨⟨["root"], [], []⟩, []⟩ "proj" "art" [] [] ⟨"b", "k"⟩ ⟨"b", "k"⟩
    "typ" "typ" none none ⟨none, none, "art", some "latest"⟩
    (by decide) (by decide) (by decide) (by decide)).2.1 rfl

end Aeromancy
